import Mathlib

/-!
Verification of the dependency-reachability crawler
`tools/ep_nist_dependency_map.py` of the secops-framework repository.

The Python program is shallowly embedded: each Python function becomes a
Lean function over explicit data.  Filesystem walks are modelled by passing
the discovered files as a list (in walk order); parsed YAML documents are
modelled by the record fields the program actually reads; Python dicts
(which preserve insertion order and overwrite in place) are modelled as
association lists with an in-place `updateAssoc`; Python sets of strings
are modelled as duplicate-free lists grown by `setAdd`.

Python truthiness on optional strings (where both `None` and the empty
string are falsy, as used by the `or` chains in the source) is modelled by
`pyOr`.
-/

set_option autoImplicit false

namespace SecOps

/-- Python `a or b` on optional strings: a non-empty string on the left
wins, otherwise the right operand is returned as-is (even when it is the
empty string, which is what `dict.get(...) or dict.get(...)` does). -/
def pyOr (a b : Option String) : Option String :=
  match a with
  | some s => if s = "" then b else some s
  | none => b

/-- Python dict lookup `d[k]` / `k in d`, on an insertion-ordered
association list. -/
def lookupAssoc {α : Type} : List (String × α) → String → Option α
  | [], _ => none
  | (k', v) :: rest, k => if k' = k then some v else lookupAssoc rest k

/-- Python dict assignment `d[k] = v`: overwrite in place when the key is
present (keeping its position), append otherwise. -/
def updateAssoc {α : Type} : List (String × α) → String → α → List (String × α)
  | [], k, v => [(k, v)]
  | (k', v') :: rest, k, v =>
    if k' = k then (k, v) :: rest else (k', v') :: updateAssoc rest k v

/-- Python `set.add` on the duplicate-free list that models a set of
strings. -/
def setAdd (l : List String) (x : String) : List String :=
  if x ∈ l then l else l ++ [x]

/-- `str.endswith`, computed on the character lists so that concrete
instances evaluate inside the kernel. -/
def strEndsWith (s suf : String) : Bool :=
  suf.data.isSuffixOf s.data

/-- `str.startswith`, on the character lists. -/
def strStartsWith (s pre : String) : Bool :=
  pre.data.isPrefixOf s.data

/-- `str.lower`, on the character lists. -/
def strToLower (s : String) : String :=
  String.mk (s.data.map Char.toLower)

/-- Drop the last `n` characters (`base[:-5]` for the `_data` strip). -/
def strDropRight (s : String) (n : Nat) : String :=
  String.mk (s.data.take (s.data.length - n))

/-- Python `os.path.splitext` on a bare filename: split at the last dot,
except that a name whose characters before that dot are all dots has no
extension. -/
def splitExt (s : String) : String × String :=
  let cs := s.data
  match cs.reverse.findIdx? (· = '.') with
  | none => (s, "")
  | some r =>
    let i := cs.length - 1 - r
    if (cs.take i).any (· ≠ '.') then
      (String.mk (cs.take i), String.mk (cs.drop i))
    else (s, "")

/-- Python substring test `needle in hay`. -/
def strContainsSub (hay needle : String) : Bool :=
  hay.data.tails.any (fun t => needle.data.isPrefixOf t)

/-! ## Data model (lines 116-131 of the source) -/

/-- One discoverable content object (`ObjectDef` dataclass). -/
structure ObjectDef where
  type : String
  id : String
  name : String
  path : String
  pack : String
deriving DecidableEq, Repr

/-- One reference that did not resolve locally (`ExternalRef` dataclass). -/
structure ExternalRef where
  ref_type : String
  value : String
  file : String
  context : String
  resolved_pack : String
deriving DecidableEq, Repr

/-- An id-keyed index of one kind of object for one pack, as built by the
discovery functions (a Python dict in insertion order). -/
abbrev Index := List (String × ObjectDef)

/-! ## Exception lists and configuration (lines 56-105 of the source) -/

def EXCEPTION_LOCAL_PLAYBOOK_IDS : List String :=
  ["SOC Comms Email", "SOC Comms IM", "SOC Comms Ticketing"]

def EXCEPTION_LOCAL_SCRIPT_IDS : List String :=
  ["removeSOCFramework", "setValueTags", "ShadowModeRouter"]

def EXCEPTION_LOCAL_LIST_IDS : List String :=
  ["SOCProductCategoryMap", "SOCOptimizationConfig", "SOCFrameworkActions",
   "SOCVendorCapabilities", "SOCExecutionList", "SOCArtifacts"]

/-- The external script/command allow-list; a Python set literal, so the
duplicated entries of the source collapse to membership. -/
def EXCEPTION_EXTERNAL_SCRIPT_REFS : List String :=
  ["Builtin|||setIncident", "Builtin|||setContext", "Builtin|||DeleteContext",
   "Builtin|||createNewIncident", "Builtin|||closeInvestigation",
   "Print", "Set", "SetAndHandleEmpty", "DBotFindSimilarAlerts", "|||ip",
   "DeleteContext", "GetAlertTasks", "GetTime", "SearchAlertsV2",
   "|||core-api-post", "|||xql-post-to-dataset"]

def IGNORE_ALL_BUILTIN_COMMANDS : Bool := true

/-! ## Parsed files

A file met during the directory walk.  `parsed` is the result of
`load_yaml` when the file parses to a mapping: only the fields the
program reads are kept (`tasks` presence as a dict, top-level `id` and
`name` as strings, and `commonfields.id`).  `none` models an unparseable
file or a non-mapping document, both of which every discovery function
skips. -/

structure YamlDoc where
  hasTasksDict : Bool
  id : Option String
  name : Option String
  commonfieldsId : Option String
deriving DecidableEq, Repr

structure SrcFile where
  path : String
  filename : String
  parsed : Option YamlDoc
deriving DecidableEq, Repr

/-! ## Reference resolver (lines 184-191) -/

/-- `resolve_in_index`: exact dict lookup by id first, then a linear scan
of the values for an exact name match. -/
def resolve_in_index (value : String) (objs : Index) : Option ObjectDef :=
  match lookupAssoc objs value with
  | some o => some o
  | none => (objs.map (·.2)).find? (fun o => o.name == value)

/-! ## Content indexer (lines 196-301) -/

/-- The `name` stored for a playbook: `data.get("name") or pb_id`. -/
def pbNameOf (d : YamlDoc) (i : String) : String :=
  match d.name with
  | some s => if s = "" then i else s
  | none => i

/-- Body of the `discover_playbooks` walk loop for one file
(lines 202-222). -/
def pbStep (pack : String) (acc : Index × List String) (f : SrcFile) :
    Index × List String :=
  if !(strEndsWith (strToLower f.filename) ".yml" || strEndsWith (strToLower f.filename) ".yaml") then acc
  else
    match f.parsed with
    | none => acc
    | some d =>
      if !d.hasTasksDict then acc
      else
        match d.id with
        | none => acc
        | some i =>
          if i = "" then acc
          else
            let warns :=
              match lookupAssoc acc.1 i with
              | some old =>
                acc.2 ++ ["WARNING: duplicate playbook id " ++ i ++ " in " ++
                  f.path ++ " (already " ++ old.path ++ ")"]
              | none => acc.2
            (updateAssoc acc.1 i (ObjectDef.mk "playbook" i (pbNameOf d i) f.path pack),
             warns)

/-- `discover_playbooks`, over the files of the `Playbooks` subtree in
walk order; also returns the warnings written to stderr. -/
def discover_playbooks (pack : String) (files : List SrcFile) :
    Index × List String :=
  files.foldl (pbStep pack) ([], [])

/-- Body of the `discover_scripts` walk loop for one file
(lines 232-250).  The extension filter reproduces the source literally:
`endswith((".yml", "..yaml"))`. -/
def scStep (pack : String) (acc : Index × List String) (f : SrcFile) :
    Index × List String :=
  if !(strEndsWith (strToLower f.filename) ".yml" || strEndsWith (strToLower f.filename) "..yaml") then acc
  else
    match f.parsed with
    | none => acc
    | some d =>
      match d.commonfieldsId with
      | none => acc
      | some i =>
        if i = "" then acc
        else
          let warns :=
            match lookupAssoc acc.1 i with
            | some old =>
              acc.2 ++ ["WARNING: duplicate script id " ++ i ++ " in " ++
                f.path ++ " (already " ++ old.path ++ ")"]
            | none => acc.2
          (updateAssoc acc.1 i (ObjectDef.mk "script" i (pbNameOf d i) f.path pack),
           warns)

/-- `discover_scripts`, over the files of the `Scripts` subtree in walk
order. -/
def discover_scripts (pack : String) (files : List SrcFile) :
    Index × List String :=
  files.foldl (scStep pack) ([], [])

/-- Base filename of a logical list: extension split off, a trailing
`_data` stripped (lines 273-280). -/
def listBase (f : SrcFile) : String :=
  let fname := (splitExt f.filename).1
  if strEndsWith fname "_data" then strDropRight fname 5 else fname

/-- Lower-cased extension of a file in the `Lists` subtree. -/
def listExt (f : SrcFile) : String :=
  strToLower (splitExt f.filename).2

/-- Body of the `discover_lists` walk loop for one file (lines 270-299).
Note the source checks `if list_id in res` against the plain base name
BEFORE the YAML name override, and records nothing and logs nothing for a
skipped duplicate. -/
def listStep (pack : String) (acc : Index) (f : SrcFile) : Index :=
  let base := listBase f
  if listExt f ∉ [".json", ".yml", ".yaml"] then acc
  else if (lookupAssoc acc base).isSome then acc
  else
    let idName : String :=
      if listExt f ∈ [".yml", ".yaml"] then
        match f.parsed with
        | some d =>
          match d.name with
          | some s => if s = "" then base else s
          | none => base
        | none => base
      else base
    updateAssoc acc idName (ObjectDef.mk "list" idName idName f.path pack)

/-- `discover_lists`, over the files of the `Lists` subtree in walk
order.  The source emits no warnings here. -/
def discover_lists (pack : String) (files : List SrcFile) : Index :=
  files.foldl (listStep pack) []

/-! ## Reachability reporter (lines 171-181 and 571-593) -/

/-- `list_is_referenced_anywhere`: does the id or name of the object occur
as a substring of any cached file text other than its own definition file?
Paths in the cache are taken already in the canonical (absolute) form the
source compares with. -/
def list_is_referenced_anywhere (obj : ObjectDef)
    (file_text : List (String × String)) : Bool :=
  file_text.any (fun pt =>
    pt.1 != obj.path && (strContainsSub pt.2 obj.id || strContainsSub pt.2 obj.name))

/-- The per-kind set difference `all_local_ids - reachable - exceptions`
(lines 575-577). -/
def not_needed_ids (allIds reachable exc : List String) : List String :=
  allIds.filter (fun i => decide (i ∉ reachable ∧ i ∉ exc))

/-- The lists second pass (lines 585-593): keep only the unused lists
that the whole-repository text scan does not find anywhere.  In `main`
every id handed in is a key of `local_lists`; a missing key (impossible
there) is kept unused. -/
def really_unused_lists (local_lists : Index) (unused : List String)
    (file_text : List (String × String)) : List String :=
  unused.filter (fun lid =>
    match lookupAssoc local_lists lid with
    | some obj => !(list_is_referenced_anywhere obj file_text)
    | none => true)

/-! ## Dependency crawl (lines 314-451)

A playbook task, as read by the crawler.  The inner `task` mapping is
`none` when absent or falsy (`task.get("task") or {}`); a non-mapping
entry of the `tasks` dict is modelled as `none` at the `TaskEntry` level
since the source skips it.  An argument value is a mapping with an
optional `simple` string, a bare string, or anything else (which the
source ignores). -/

inductive ArgVal where
  | vdict (simple : Option String)
  | vstr (s : String)
  | vother
deriving DecidableEq, Repr

structure TaskInner where
  playbookId : Option String
  playbook_id : Option String
  playbookName : Option String
  playbook : Option String
  scriptName : Option String
  script : Option String
  scriptId : Option String
  script_id : Option String
deriving DecidableEq, Repr

def TaskInner.empty : TaskInner :=
  ⟨none, none, none, none, none, none, none, none⟩

structure TaskEntry where
  task : Option TaskInner
  scriptarguments : List (String × ArgVal)
deriving DecidableEq, Repr

/-- One external pack and its three pre-built indexes (an element of
`external_indexes`). -/
structure ExtPack where
  pack_root : String
  pbs : Index
  scripts : Index
  lists : Index
deriving DecidableEq, Repr

/-- The parsed task graphs of the playbook files, keyed by file path
(what `load_yaml(pb.path)` followed by the `tasks` extraction yields; a
path that is missing here behaves like a file without a task dict, which
the crawler skips). -/
abbrev PbFiles := List (String × List (String × Option TaskEntry))

/-- Result quadruple of `crawl_dependencies`. -/
structure CrawlState where
  reachable_pbs : List String
  reachable_scripts : List String
  reachable_lists : List String
  external_refs : List ExternalRef
deriving DecidableEq, Repr

/-- The sub-playbook reference value of a task (lines 355-359):
`playbookId or playbook_id` when that yields a string, otherwise
`playbookName or playbook`. -/
def subPlaybookRef (t : TaskInner) : Option String :=
  match pyOr t.playbookId t.playbook_id with
  | some s => some s
  | none => pyOr t.playbookName t.playbook

/-- The script reference value of a task (lines 383-388):
`scriptName or script or scriptId or script_id`. -/
def scriptRefOf (t : TaskInner) : Option String :=
  pyOr (pyOr (pyOr t.scriptName t.script) t.scriptId) t.script_id

/-- The `resolved_pack` recorded on an external reference: the first
supplied external pack whose index resolves the value, else the
`"UNKNOWN"` sentinel. -/
def findResolvedPack (f : ExtPack → Option ObjectDef) (ext : List ExtPack) :
    String :=
  match ext.find? (fun pk => (f pk).isSome) with
  | some pk => pk.pack_root
  | none => "UNKNOWN"

/-- Sub-playbook handling for one task (lines 354-380).  Returns the
updated reachable-playbook set, the queue additions, and the external
references. -/
def handleSubPlaybook (tid : String) (pb : ObjectDef) (t : TaskInner)
    (local_pbs : Index) (ext : List ExtPack)
    (reachable queueAdd : List String) (refs : List ExternalRef) :
    List String × List String × List ExternalRef :=
  match subPlaybookRef t with
  | none => (reachable, queueAdd, refs)
  | some ref_val =>
    match resolve_in_index ref_val local_pbs with
    | some o =>
      if o.id ∈ reachable then (reachable, queueAdd, refs)
      else (reachable ++ [o.id], queueAdd ++ [o.id], refs)
    | none =>
      let rp := findResolvedPack (fun pk => resolve_in_index ref_val pk.pbs) ext
      (reachable, queueAdd,
        refs ++ [ExternalRef.mk "playbook" ref_val pb.path
          ("task " ++ tid ++ " playbook") rp])

/-- Script handling for one task (lines 382-413), including the two skip
conditions in source order: built-in convention first (under
`IGNORE_ALL_BUILTIN_COMMANDS`), then the explicit allow-list. -/
def handleScript (tid : String) (pb : ObjectDef) (t : TaskInner)
    (local_scripts : Index) (ext : List ExtPack)
    (scripts : List String) (refs : List ExternalRef) :
    List String × List ExternalRef :=
  match scriptRefOf t with
  | none => (scripts, refs)
  | some s =>
    if IGNORE_ALL_BUILTIN_COMMANDS && strStartsWith s "Builtin|||" then (scripts, refs)
    else if s ∈ EXCEPTION_EXTERNAL_SCRIPT_REFS then (scripts, refs)
    else
      match resolve_in_index s local_scripts with
      | some o => (setAdd scripts o.id, refs)
      | none =>
        let rp := findResolvedPack (fun pk => resolve_in_index s pk.scripts) ext
        (scripts,
          refs ++ [ExternalRef.mk "script" s pb.path
            ("task " ++ tid ++ " script") rp])

/-- The literal string value of one argument (lines 424-430): a mapping
contributes its `simple` entry when that is a string, a bare string
contributes itself, anything else is skipped. -/
def listArgValue : ArgVal → Option String
  | ArgVal.vdict s => s
  | ArgVal.vstr s => some s
  | ArgVal.vother => none

/-- One `scriptarguments` entry (lines 417-449): only the list-argument
conventions are considered, one level of `simple` indirection is
unwrapped, and the value resolves like a script (no enqueueing). -/
def handleListArg (tid : String) (pb : ObjectDef) (local_lists : Index)
    (ext : List ExtPack) (acc : List String × List ExternalRef)
    (arg : String × ArgVal) : List String × List ExternalRef :=
  if strToLower arg.1 ∈ ["listname", "list_name", "list", "lists", "listnames"] then
    match listArgValue arg.2 with
    | none => acc
    | some v =>
      match resolve_in_index v local_lists with
      | some o => (setAdd acc.1 o.id, acc.2)
      | none =>
        let rp := findResolvedPack (fun pk => resolve_in_index v pk.lists) ext
        (acc.1,
          acc.2 ++ [ExternalRef.mk "list" v pb.path
            ("task " ++ tid ++ " arg " ++ arg.1) rp])
  else acc

def handleListArgs (tid : String) (pb : ObjectDef) (local_lists : Index)
    (ext : List ExtPack) (args : List (String × ArgVal))
    (lists : List String) (refs : List ExternalRef) :
    List String × List ExternalRef :=
  args.foldl (handleListArg tid pb local_lists ext) (lists, refs)

/-- Accumulator threaded through the task loop of one dequeued playbook:
the growing reachable sets, the ids appended to the BFS queue by this
playbook, and the external references. -/
structure CrawlAcc where
  reachable : List String
  queueAdd : List String
  scripts : List String
  lists : List String
  refs : List ExternalRef
deriving DecidableEq, Repr

/-- The body of `for tid, task in tasks.items()` (lines 349-449) for one
entry. -/
def processTask (pb : ObjectDef) (local_pbs local_scripts local_lists : Index)
    (ext : List ExtPack) (acc : CrawlAcc) (entry : String × Option TaskEntry) :
    CrawlAcc :=
  match entry.2 with
  | none => acc
  | some te =>
    let t := te.task.getD TaskInner.empty
    let rqr := handleSubPlaybook entry.1 pb t local_pbs ext
      acc.reachable acc.queueAdd acc.refs
    let sr := handleScript entry.1 pb t local_scripts ext acc.scripts rqr.2.2
    let lr := handleListArgs entry.1 pb local_lists ext te.scriptarguments
      acc.lists sr.2
    ⟨rqr.1, rqr.2.1, sr.1, lr.1, lr.2⟩

def processTasks (pb : ObjectDef) (local_pbs local_scripts local_lists : Index)
    (ext : List ExtPack) (tasks : List (String × Option TaskEntry))
    (acc : CrawlAcc) : CrawlAcc :=
  tasks.foldl (processTask pb local_pbs local_scripts local_lists ext) acc

/-- The `while queue` loop of `crawl_dependencies` (lines 338-449).  The
`fuel` argument is a proof device only: `crawlLoop_isSome` below shows
the fuel supplied by `crawl_dependencies` can never run out, which is the
termination argument of the Python loop (a playbook is enqueued only when
its id is not yet in the reachable set). -/
def crawlLoop (local_pbs local_scripts local_lists : Index)
    (ext : List ExtPack) (files : PbFiles) :
    Nat → List String → List String → List String → List String →
    List ExternalRef → Option CrawlState
  | _, [], reachable, scripts, lists, refs =>
    some ⟨reachable, scripts, lists, refs⟩
  | 0, _ :: _, _, _, _, _ => none
  | fuel + 1, q :: rest, reachable, scripts, lists, refs =>
    match lookupAssoc local_pbs q with
    | none =>
      crawlLoop local_pbs local_scripts local_lists ext files
        fuel rest reachable scripts lists refs
    | some pb =>
      let tasks := (lookupAssoc files pb.path).getD []
      let acc := processTasks pb local_pbs local_scripts local_lists ext tasks
        ⟨reachable, [], scripts, lists, refs⟩
      crawlLoop local_pbs local_scripts local_lists ext files
        fuel (rest ++ acc.queueAdd) acc.reachable acc.scripts acc.lists acc.refs

/-- `crawl_dependencies` (lines 314-451).  The initial reachable set and
queue are the root playbook ids with duplicates removed (a Python set
comprehension); the fuel bound is justified by `crawlLoop_isSome`. -/
def crawl_dependencies (root_playbooks : List ObjectDef)
    (local_pbs local_scripts local_lists : Index) (ext : List ExtPack)
    (files : PbFiles) : Option CrawlState :=
  let reachable0 := (root_playbooks.map (·.id)).dedup
  crawlLoop local_pbs local_scripts local_lists ext files
    (reachable0.length + local_pbs.length) reachable0 reachable0 [] [] []

/-! ## Exit behaviour of `main` (lines 490-539)

Everything `main` does after the root playbooks are resolved (the crawl
and the printed report) calls `sys.exit` nowhere, so the exit status is
decided entirely by: the root-pack directory check (line 491), the
per-id root lookups (line 520), the per-name root lookups (line 532) and
the no-roots check (line 537).  The function returns the exit status
together with the warnings printed for missing external packs
(line 506); a missing external pack is skipped and never consulted
again. -/
def main_exit (rootPackIsDir : Bool) (local_pbs : Index)
    (otherPacks : List (String × Bool)) (rootIds rootNames : List String) :
    Nat × List String :=
  if rootPackIsDir = false then (1, [])
  else
    let warns := (otherPacks.filter (fun p => !p.2)).map
      (fun p => "WARNING: other pack not found: " ++ p.1)
    if rootIds.any (fun rid => (lookupAssoc local_pbs rid).isNone) then (1, warns)
    else if rootNames.any (fun rn => !(local_pbs.any (fun p => p.2.name == rn))) then (1, warns)
    else if rootIds.isEmpty && rootNames.isEmpty then (1, warns)
    else (0, warns)

/-! ## Concrete fixtures used by witnesses and counterexamples -/

/-- Index keys of an association list (Python `dict.keys()`). -/
def keysOf {α : Type} (l : List (String × α)) : List String := l.map (·.1)

/-- The object ids stored in an index (for indexes built by the discovery
functions these coincide with the keys). -/
def idsOf (l : Index) : List String := l.map (fun p => (p.2).id)

def fixPbA : ObjectDef := ⟨"playbook", "A", "Alpha Flow", "Packs/r/Playbooks/A.yml", "Packs/r"⟩

def fixPbB : ObjectDef := ⟨"playbook", "B", "Beta Flow", "Packs/r/Playbooks/B.yml", "Packs/r"⟩

def fixPbIndex : Index := [("A", fixPbA), ("B", fixPbB)]

/-- A task referencing a sub-playbook by id. -/
def fixTaskPbId (v : String) : TaskInner :=
  { TaskInner.empty with playbookId := some v }

/-- A task referencing a sub-playbook by display name. -/
def fixTaskPbName (v : String) : TaskInner :=
  { TaskInner.empty with playbookName := some v }

/-- A cyclic reference graph: A references B twice (once by id, once by
name), B references A. -/
def fixCycFiles : PbFiles :=
  [("Packs/r/Playbooks/A.yml",
     [("1", some ⟨some (fixTaskPbId "B"), []⟩),
      ("2", some ⟨some (fixTaskPbName "Beta Flow"), []⟩)]),
   ("Packs/r/Playbooks/B.yml",
     [("1", some ⟨some (fixTaskPbId "A"), []⟩)])]

def fixScript1 : ObjectDef := ⟨"script", "s1", "Script Display", "Packs/r/Scripts/s1.yml", "Packs/r"⟩

def fixScriptIndex : Index := [("s1", fixScript1)]

/-- A reaches a local script by display name. -/
def fixScriptFiles : PbFiles :=
  [("Packs/r/Playbooks/A.yml",
     [("1", some ⟨some { TaskInner.empty with scriptName := some "Script Display" }, []⟩)])]

/-- An index whose only inhabitants nearly, but not exactly, match
`"Foo Bar"`. -/
def fixFuzzyIndex : Index :=
  [("foo bar", ⟨"script", "foo bar", "foo bar", "p1", "k"⟩),
   ("Foo-Bar", ⟨"script", "Foo-Bar", "Foo-Bar", "p2", "k"⟩),
   ("Foo Barx", ⟨"script", "Foo Barx", "Foo Barx", "p3", "k"⟩)]

/-- An index whose object is keyed by id `"id1"` but displays as
`"Foo Bar"`. -/
def fixNameIndex : Index := [("id1", ⟨"script", "id1", "Foo Bar", "p", "k"⟩)]

def fixDupPb1 : SrcFile := ⟨"Packs/r/Playbooks/a.yml", "a.yml", some ⟨true, some "P", none, none⟩⟩

def fixDupPb2 : SrcFile := ⟨"Packs/r/Playbooks/b.yml", "b.yml", some ⟨true, some "P", none, none⟩⟩

def fixListJson : SrcFile := ⟨"Packs/r/Lists/Foo.json", "Foo.json", none⟩

def fixListYml : SrcFile := ⟨"Packs/r/Lists/Foo.yml", "Foo.yml", some ⟨false, none, some "Bar", none⟩⟩

def fixScrYaml : SrcFile := ⟨"Packs/r/Scripts/S/S.yaml", "S.yaml", some ⟨false, none, none, some "MyScript"⟩⟩

def fixScrYml : SrcFile := ⟨"Packs/r/Scripts/S/S.yml", "S.yml", some ⟨false, none, none, some "MyScript"⟩⟩

def fixMyListObj : ObjectDef := ⟨"list", "MyList", "MyList", "Packs/r/Lists/MyList.json", "Packs/r"⟩

def fixListIndex : Index := [("MyList", fixMyListObj)]

/-- Text cache: the list definition file itself plus a script whose
source mentions the list by name. -/
def fixFileText : List (String × String) :=
  [("Packs/r/Lists/MyList.json", "defn"),
   ("Packs/r/Scripts/u.py", "x = getList MyList")]

/-! ## Basic lemmas about the dict model -/

theorem lookupAssoc_mem {α : Type} (l : List (String × α)) (k : String) (v : α)
    (h : lookupAssoc l k = some v) : (k, v) ∈ l := by
  induction l with
  | nil => simp [lookupAssoc] at h
  | cons p rest ih =>
    rw [show lookupAssoc (p :: rest) k
        = if p.1 = k then some p.2 else lookupAssoc rest k from rfl] at h
    split at h
    · rename_i he
      cases h
      subst he
      exact List.mem_cons_self _ _
    · exact List.mem_cons_of_mem _ (ih h)

theorem lookup_updateAssoc_self {α : Type} (l : List (String × α)) (k : String)
    (v : α) : lookupAssoc (updateAssoc l k v) k = some v := by
  induction l with
  | nil => simp [updateAssoc, lookupAssoc]
  | cons p rest ih =>
    rw [show updateAssoc (p :: rest) k v
        = if p.1 = k then (k, v) :: rest else p :: updateAssoc rest k v from rfl]
    split
    · simp [lookupAssoc]
    · rename_i hne
      rw [show lookupAssoc (p :: updateAssoc rest k v) k
          = if p.1 = k then some p.2 else lookupAssoc (updateAssoc rest k v) k from rfl]
      simp [hne, ih]

theorem resolve_mem (v : String) (objs : Index) (o : ObjectDef)
    (h : resolve_in_index v objs = some o) : o ∈ objs.map (·.2) := by
  unfold resolve_in_index at h
  cases hl : lookupAssoc objs v with
  | some o' =>
    rw [hl] at h
    cases h
    exact List.mem_map_of_mem _ (lookupAssoc_mem _ _ _ hl)
  | none =>
    rw [hl] at h
    exact List.mem_of_find?_eq_some h

theorem resolve_id_mem_ids (v : String) (objs : Index) (o : ObjectDef)
    (h : resolve_in_index v objs = some o) : o.id ∈ idsOf objs := by
  have hm := resolve_mem v objs o h
  simp only [List.mem_map] at hm
  rcases hm with ⟨p, hp, he⟩
  exact List.mem_map.mpr ⟨p, hp, by rw [he]⟩

/-! ## Claim C4 -/

/-- C4: the resolver returns an object only when the queried value is
byte-exactly the id of the index entry (the dict key, which for
discovery-built indexes is the object id) or byte-exactly the object
name; and an exact id hit takes priority over the name scan.  No
case-insensitive, fuzzy or partial match can resolve. -/
theorem claim_C4 :
    (∀ (v : String) (objs : Index) (o : ObjectDef),
      (∀ p ∈ objs, (p.2).id = p.1) → resolve_in_index v objs = some o →
      v = o.id ∨ v = o.name)
    ∧ (∀ (v : String) (objs : Index) (o : ObjectDef),
      lookupAssoc objs v = some o → resolve_in_index v objs = some o) := by
  constructor
  · intro v objs o hkey h
    unfold resolve_in_index at h
    cases hl : lookupAssoc objs v with
    | some o' =>
      rw [hl] at h
      cases h
      left
      exact (hkey _ (lookupAssoc_mem _ _ _ hl)).symm
    | none =>
      rw [hl] at h
      right
      have hn : o.name = v := by simpa using List.find?_some h
      exact hn.symm
  · intro v objs o h
    unfold resolve_in_index
    rw [h]

/-- C4 witness: the resolver rejects all near-misses of `"Foo Bar"` and,
where it does resolve (by display name here), the general theorem applies. -/
theorem claim_C4_witness :
    resolve_in_index "Foo Bar" fixFuzzyIndex = none ∧
    resolve_in_index "Foo Bar" fixNameIndex
      = some ⟨"script", "id1", "Foo Bar", "p", "k"⟩ ∧
    ("Foo Bar" = "id1" ∨ "Foo Bar" = "Foo Bar") :=
  ⟨by decide, by decide,
    claim_C4.1 "Foo Bar" fixNameIndex ⟨"script", "id1", "Foo Bar", "p", "k"⟩
      (by decide) (by decide)⟩

/-! ## Claim C6 -/

/-- C6 counterexample: a task carrying `playbook_id = ""` (id-like field
present but empty) and `playbookName = "B"`.  The claim requires the
name-like field `"B"` to be resolved; the code resolves the empty string
instead, because `playbookId or playbook_id` evaluates to `""`, which is
a string. -/
theorem claim_C6_counterexample :
    subPlaybookRef ⟨none, some "", some "B", none, none, none, none, none⟩
      = some "" ∧ ("" : String) ≠ "B" := by
  constructor
  · rfl
  · decide

/-- C6 (amended): the resolved sub-playbook value is `playbookId`
whenever that is present and non-empty; otherwise it is `playbook_id`
whenever `playbook_id` is present, even when it is the empty string; the
name-like field is consulted only when `playbookId` is absent or empty
and `playbook_id` is absent. -/
theorem claim_C6 :
    (∀ (t : TaskInner) (s : String),
      t.playbookId = some s → s ≠ "" → subPlaybookRef t = some s)
    ∧ (∀ (t : TaskInner) (u : String),
      (t.playbookId = none ∨ t.playbookId = some "") → t.playbook_id = some u →
      subPlaybookRef t = some u)
    ∧ (∀ (t : TaskInner) (n : String),
      (t.playbookId = none ∨ t.playbookId = some "") → t.playbook_id = none →
      t.playbookName = some n → n ≠ "" → subPlaybookRef t = some n) := by
  refine ⟨?_, ?_, ?_⟩
  · intro t s hid hne
    simp [subPlaybookRef, pyOr, hid, hne]
  · intro t u hid hpid
    rcases hid with h | h <;> cases hu : decide (u = "") <;>
      simp_all [subPlaybookRef, pyOr]
  · intro t n hid hpid hnm hne
    rcases hid with h | h <;> simp_all [subPlaybookRef, pyOr]

/-- C6 witness: the three amended branches at concrete tasks. -/
theorem claim_C6_witness :
    subPlaybookRef { TaskInner.empty with playbookId := some "X" } = some "X" ∧
    subPlaybookRef { TaskInner.empty with playbook_id := some "U" } = some "U" ∧
    subPlaybookRef { TaskInner.empty with playbookName := some "N" } = some "N" :=
  ⟨claim_C6.1 _ "X" rfl (by decide),
   claim_C6.2.1 _ "U" (Or.inl rfl) rfl,
   claim_C6.2.2 _ "N" (Or.inl rfl) rfl rfl (by decide)⟩

/-! ## Claim C8 -/

/-- C8: script indexing misses `.yaml` files.  The extension filter of
`discover_scripts` (line 234) reads `endswith((".yml", "..yaml"))` — a
doubled dot — so a Scripts file named `S.yaml` carrying
`commonfields.id` is silently skipped, while the same content under
`S.yml` is indexed.  This is the failing input for the claim, which the
spec states for both supported YAML extensions (as `discover_playbooks`
line 204 implements). -/
theorem claim_C8 :
    (discover_scripts "Packs/r" [fixScrYaml]).1 = [] ∧
    (discover_scripts "Packs/r" [fixScrYml]).1
      = [("MyScript",
          ⟨"script", "MyScript", "MyScript", "Packs/r/Scripts/S/S.yml", "Packs/r"⟩)] := by
  constructor
  · decide
  · decide

/-! ## Claim C2 -/

theorem discover_playbooks_append (pack : String) (fs : List SrcFile)
    (f : SrcFile) :
    discover_playbooks pack (fs ++ [f]) = pbStep pack (discover_playbooks pack fs) f := by
  simp [discover_playbooks, List.foldl_append]

theorem discover_scripts_append (pack : String) (fs : List SrcFile)
    (f : SrcFile) :
    discover_scripts pack (fs ++ [f]) = scStep pack (discover_scripts pack fs) f := by
  simp [discover_scripts, List.foldl_append]

theorem pbStep_qualify (pack : String) (acc : Index × List String) (f : SrcFile)
    (d : YamlDoc) (i : String) (hp : f.parsed = some d)
    (ht : d.hasTasksDict = true) (hid : d.id = some i) (hne : i ≠ "")
    (hext : (strEndsWith (strToLower f.filename) ".yml"
      || strEndsWith (strToLower f.filename) ".yaml") = true) :
    pbStep pack acc f
      = (updateAssoc acc.1 i (ObjectDef.mk "playbook" i (pbNameOf d i) f.path pack),
         match lookupAssoc acc.1 i with
         | some old => acc.2 ++ ["WARNING: duplicate playbook id " ++ i ++ " in " ++
             f.path ++ " (already " ++ old.path ++ ")"]
         | none => acc.2) := by
  simp [pbStep, hp, ht, hid, hne, hext]

theorem scStep_qualify (pack : String) (acc : Index × List String) (f : SrcFile)
    (d : YamlDoc) (i : String) (hp : f.parsed = some d)
    (hid : d.commonfieldsId = some i) (hne : i ≠ "")
    (hext : (strEndsWith (strToLower f.filename) ".yml"
      || strEndsWith (strToLower f.filename) "..yaml") = true) :
    scStep pack acc f
      = (updateAssoc acc.1 i (ObjectDef.mk "script" i (pbNameOf d i) f.path pack),
         match lookupAssoc acc.1 i with
         | some old => acc.2 ++ ["WARNING: duplicate script id " ++ i ++ " in " ++
             f.path ++ " (already " ++ old.path ++ ")"]
         | none => acc.2) := by
  simp [scStep, hp, hid, hne, hext]

/-- C2 counterexample: two qualifying playbook files with the same id
`"P"`.  The index keeps the ObjectDef of the SECOND file
(`Playbooks/b.yml`), not the first, because line 222 assigns
`res[pb_id] = ...` unconditionally after the warning. -/
theorem claim_C2_counterexample :
    lookupAssoc (discover_playbooks "Packs/r" [fixDupPb1, fixDupPb2]).1 "P"
      ≠ some (ObjectDef.mk "playbook" "P" "P" "Packs/r/Playbooks/a.yml" "Packs/r") ∧
    lookupAssoc (discover_playbooks "Packs/r" [fixDupPb1, fixDupPb2]).1 "P"
      = some (ObjectDef.mk "playbook" "P" "P" "Packs/r/Playbooks/b.yml" "Packs/r") := by
  constructor
  · decide
  · decide

/-- C2 (amended): when two files yield the same id, the ObjectDef of the
LAST-encountered file is kept (the later assignment overwrites the
earlier one in place), the collision is reported as one more warning, and
indexing continues without a fatal error (the discovery functions are
total).  Stated for playbooks and scripts via the one-file extension of
the fold. -/
theorem claim_C2 :
    (∀ (pack : String) (fs : List SrcFile) (f : SrcFile) (d : YamlDoc) (i : String),
      f.parsed = some d → d.hasTasksDict = true → d.id = some i → i ≠ "" →
      (strEndsWith (strToLower f.filename) ".yml"
        || strEndsWith (strToLower f.filename) ".yaml") = true →
      lookupAssoc (discover_playbooks pack (fs ++ [f])).1 i
        = some (ObjectDef.mk "playbook" i (pbNameOf d i) f.path pack)
      ∧ ((lookupAssoc (discover_playbooks pack fs).1 i).isSome = true →
         (discover_playbooks pack (fs ++ [f])).2.length
           = (discover_playbooks pack fs).2.length + 1))
    ∧ (∀ (pack : String) (fs : List SrcFile) (f : SrcFile) (d : YamlDoc) (i : String),
      f.parsed = some d → d.commonfieldsId = some i → i ≠ "" →
      (strEndsWith (strToLower f.filename) ".yml"
        || strEndsWith (strToLower f.filename) "..yaml") = true →
      lookupAssoc (discover_scripts pack (fs ++ [f])).1 i
        = some (ObjectDef.mk "script" i (pbNameOf d i) f.path pack)
      ∧ ((lookupAssoc (discover_scripts pack fs).1 i).isSome = true →
         (discover_scripts pack (fs ++ [f])).2.length
           = (discover_scripts pack fs).2.length + 1)) := by
  constructor
  · intro pack fs f d i hp ht hid hne hext
    rw [discover_playbooks_append, pbStep_qualify pack _ f d i hp ht hid hne hext]
    constructor
    · exact lookup_updateAssoc_self _ _ _
    · intro hdup
      cases hl : lookupAssoc (discover_playbooks pack fs).1 i with
      | none => rw [hl] at hdup; cases hdup
      | some old => simp [hl]
  · intro pack fs f d i hp hid hne hext
    rw [discover_scripts_append, scStep_qualify pack _ f d i hp hid hne hext]
    constructor
    · exact lookup_updateAssoc_self _ _ _
    · intro hdup
      cases hl : lookupAssoc (discover_scripts pack fs).1 i with
      | none => rw [hl] at hdup; cases hdup
      | some old => simp [hl]

/-- C2 witness: the duplicate pair of the counterexample, through the
amended theorem. -/
theorem claim_C2_witness :
    lookupAssoc (discover_playbooks "Packs/r" ([fixDupPb1] ++ [fixDupPb2])).1 "P"
      = some (ObjectDef.mk "playbook" "P" "P" "Packs/r/Playbooks/b.yml" "Packs/r") ∧
    (discover_playbooks "Packs/r" ([fixDupPb1] ++ [fixDupPb2])).2.length
      = (discover_playbooks "Packs/r" [fixDupPb1]).2.length + 1 := by
  have h := claim_C2.1 "Packs/r" [fixDupPb1] fixDupPb2 ⟨true, some "P", none, none⟩
    "P" rfl rfl rfl (by decide) (by decide)
  exact ⟨h.1, h.2 (by decide)⟩

/-! ## Claim C7 -/

theorem discover_lists_append (pack : String) (fs : List SrcFile) (f : SrcFile) :
    discover_lists pack (fs ++ [f]) = listStep pack (discover_lists pack fs) f := by
  simp [discover_lists, List.foldl_append]

theorem listStep_skip (pack : String) (acc : Index) (f : SrcFile)
    (h : (lookupAssoc acc (listBase f)).isSome = true) :
    listStep pack acc f = acc := by
  unfold listStep
  split
  · rfl
  · simp [h]

theorem listStep_yamlName (pack : String) (acc : Index) (f : SrcFile)
    (d : YamlDoc) (nm : String) (hext : listExt f ∈ [".yml", ".yaml"])
    (hp : f.parsed = some d) (hnm : d.name = some nm) (hne : nm ≠ "")
    (hnew : lookupAssoc acc (listBase f) = none) :
    listStep pack acc f
      = updateAssoc acc nm (ObjectDef.mk "list" nm nm f.path pack) := by
  have hext3 : listExt f ∈ [".json", ".yml", ".yaml"] := by
    simp only [List.mem_cons, List.not_mem_nil, or_false] at hext ⊢
    tauto
  simp [listStep, hext3, hext, hp, hnm, hne, hnew]

/-- C7 counterexample: the logical list `Foo` given by a JSON file and a
YAML sibling carrying explicit name `"Bar"`.  When the JSON file is
walked first, the YAML sibling is skipped entirely (line 289 checks the
base name before reading the YAML), so `"Bar"` is never used — the
explicit name therefore is NOT used independently of encounter order,
and the two orders produce different indexes. -/
theorem claim_C7_counterexample :
    discover_lists "Packs/r" [fixListJson, fixListYml]
      = [("Foo", ObjectDef.mk "list" "Foo" "Foo" "Packs/r/Lists/Foo.json" "Packs/r")] ∧
    lookupAssoc (discover_lists "Packs/r" [fixListJson, fixListYml]) "Bar" = none ∧
    discover_lists "Packs/r" [fixListYml, fixListJson]
      ≠ discover_lists "Packs/r" [fixListJson, fixListYml] := by
  refine ⟨by decide, by decide, by decide⟩

/-- C7 (amended): a sibling YAML file's explicit non-empty `name` is used
as both the list id and name exactly when that YAML file is processed
before any sibling of the same base name has been recorded — the outcome
depends on encounter order; once a logical id is recorded, any later
sibling file is skipped silently, with nothing logged (the list walk
emits no warnings at all). -/
theorem claim_C7 :
    (∀ (pack : String) (fs : List SrcFile) (f : SrcFile) (d : YamlDoc) (nm : String),
      listExt f ∈ [".yml", ".yaml"] → f.parsed = some d → d.name = some nm →
      nm ≠ "" → lookupAssoc (discover_lists pack fs) (listBase f) = none →
      lookupAssoc (discover_lists pack (fs ++ [f])) nm
        = some (ObjectDef.mk "list" nm nm f.path pack))
    ∧ (∀ (pack : String) (fs : List SrcFile) (f : SrcFile),
      (lookupAssoc (discover_lists pack fs) (listBase f)).isSome = true →
      discover_lists pack (fs ++ [f]) = discover_lists pack fs) := by
  constructor
  · intro pack fs f d nm hext hp hnm hne hnew
    rw [discover_lists_append, listStep_yamlName pack _ f d nm hext hp hnm hne hnew]
    exact lookup_updateAssoc_self _ _ _
  · intro pack fs f h
    rw [discover_lists_append, listStep_skip pack _ f h]

/-- C7 witness: the YAML sibling first (its name is used), then the
JSON-first order (the YAML file is skipped). -/
theorem claim_C7_witness :
    lookupAssoc (discover_lists "Packs/r" ([] ++ [fixListYml])) "Bar"
      = some (ObjectDef.mk "list" "Bar" "Bar" "Packs/r/Lists/Foo.yml" "Packs/r") ∧
    discover_lists "Packs/r" ([fixListJson] ++ [fixListYml])
      = discover_lists "Packs/r" [fixListJson] :=
  ⟨claim_C7.1 "Packs/r" [] fixListYml ⟨false, none, some "Bar", none⟩ "Bar"
      (by decide) rfl rfl (by decide) rfl,
   claim_C7.2 "Packs/r" [fixListJson] fixListYml (by decide)⟩

/-! ## Claim C5 -/

/-- C5: a script reference matching the built-in convention (with
`IGNORE_ALL_BUILTIN_COMMANDS` enabled, as the source configures) or
contained in the allow-list is skipped entirely: the reachable script
set and the external reference list are returned unchanged.  The
definition of `handleScript` mirrors the if/elif order of lines 391-394:
the built-in check is evaluated before the allow-list check. -/
theorem claim_C5 :
    ∀ (tid : String) (pb : ObjectDef) (t : TaskInner) (ls : Index)
      (ext : List ExtPack) (scripts : List String) (refs : List ExternalRef)
      (s : String),
      scriptRefOf t = some s →
      (strStartsWith s "Builtin|||" = true ∨ s ∈ EXCEPTION_EXTERNAL_SCRIPT_REFS) →
      handleScript tid pb t ls ext scripts refs = (scripts, refs) := by
  intro tid pb t ls ext scripts refs s href hcond
  unfold handleScript
  rw [href]
  rcases hcond with hb | hm
  · simp [IGNORE_ALL_BUILTIN_COMMANDS, hb]
  · cases hsb : strStartsWith s "Builtin|||"
    · simp [IGNORE_ALL_BUILTIN_COMMANDS, hsb, hm]
    · simp [IGNORE_ALL_BUILTIN_COMMANDS, hsb]

/-- C5 witness: a built-in reference and an allow-listed reference, each
leaving the accumulated sets untouched. -/
theorem claim_C5_witness :
    handleScript "1" fixPbA
      { TaskInner.empty with scriptName := some "Builtin|||setIncident" }
      [] [] ["x"] [] = (["x"], []) ∧
    handleScript "2" fixPbA
      { TaskInner.empty with script := some "Print" }
      [] [] [] [] = ([], []) :=
  ⟨claim_C5 "1" fixPbA _ [] [] ["x"] [] "Builtin|||setIncident" (by decide)
      (Or.inl (by decide)),
   claim_C5 "2" fixPbA _ [] [] [] [] "Print" (by decide) (Or.inr (by decide))⟩

/-! ## Claim C1 -/

/-- C1 counterexample: the local list `MyList` is unreachable, is not in
the exception set, and its name occurs in the text of another file, so
the text-scan refinement removes it from the not-needed set — it then
lies in NONE of the three sets, violating both the coverage and the
exactly-one part of the claimed partition law for lists. -/
theorem claim_C1_counterexample :
    "MyList" ∈ keysOf fixListIndex ∧
    "MyList" ∉ ([] : List String) ∧
    "MyList" ∉ EXCEPTION_LOCAL_LIST_IDS ∧
    "MyList" ∉ really_unused_lists fixListIndex
        (not_needed_ids (keysOf fixListIndex) [] EXCEPTION_LOCAL_LIST_IDS)
        fixFileText := by
  refine ⟨by decide, by decide, by decide, by decide⟩

/-- C1 (amended): for every kind the not-needed set is exactly the local
ids that are neither reachable nor excepted, so for playbooks and
scripts `reachable ∪ not_needed ∪ exceptions` covers all local ids, and
every not-needed object is in neither of the other two sets (a
reachable object may, however, also be excepted).  For lists, after the
text-scan refinement, a local id is reachable, excepted, really-unused,
or was rescued by the text scan (its indexed object is textually
referenced in some other file) — a rescued list lies outside all three
reported sets. -/
theorem claim_C1 :
    (∀ (allIds reachable exc : List String) (i : String), i ∈ allIds →
      i ∈ reachable ∨ i ∈ exc ∨ i ∈ not_needed_ids allIds reachable exc)
    ∧ (∀ (allIds reachable exc : List String) (i : String),
      i ∈ not_needed_ids allIds reachable exc → i ∉ reachable ∧ i ∉ exc)
    ∧ (∀ (local_lists : Index) (file_text : List (String × String))
        (allIds reachable : List String) (i : String), i ∈ allIds →
      i ∈ reachable ∨ i ∈ EXCEPTION_LOCAL_LIST_IDS ∨
      i ∈ really_unused_lists local_lists
          (not_needed_ids allIds reachable EXCEPTION_LOCAL_LIST_IDS) file_text ∨
      (∃ obj, lookupAssoc local_lists i = some obj ∧
        list_is_referenced_anywhere obj file_text = true)) := by
  refine ⟨?_, ?_, ?_⟩
  · intro allIds reachable exc i hi
    by_cases hr : i ∈ reachable
    · exact Or.inl hr
    by_cases he : i ∈ exc
    · exact Or.inr (Or.inl he)
    refine Or.inr (Or.inr (List.mem_filter.mpr ⟨hi, ?_⟩))
    exact decide_eq_true ⟨hr, he⟩
  · intro allIds reachable exc i hi
    exact of_decide_eq_true (List.mem_filter.mp hi).2
  · intro local_lists file_text allIds reachable i hi
    by_cases hr : i ∈ reachable
    · exact Or.inl hr
    by_cases he : i ∈ EXCEPTION_LOCAL_LIST_IDS
    · exact Or.inr (Or.inl he)
    have hnn : i ∈ not_needed_ids allIds reachable EXCEPTION_LOCAL_LIST_IDS :=
      List.mem_filter.mpr ⟨hi, decide_eq_true ⟨hr, he⟩⟩
    cases hl : lookupAssoc local_lists i with
    | none =>
      refine Or.inr (Or.inr (Or.inl (List.mem_filter.mpr ⟨hnn, ?_⟩)))
      simp [hl]
    | some obj =>
      by_cases hrefd : list_is_referenced_anywhere obj file_text = true
      · exact Or.inr (Or.inr (Or.inr ⟨obj, rfl, hrefd⟩))
      · refine Or.inr (Or.inr (Or.inl (List.mem_filter.mpr ⟨hnn, ?_⟩)))
        simp [hl, Bool.eq_false_iff.mpr hrefd]

/-- C1 witness: the three amended clauses at concrete inputs, including
the rescued-list configuration of the counterexample. -/
theorem claim_C1_witness :
    ("A" ∈ ([] : List String) ∨ "A" ∈ ([] : List String) ∨
      "A" ∈ not_needed_ids ["A"] [] []) ∧
    ("A" ∉ (["B"] : List String) ∧ "A" ∉ ([] : List String)) ∧
    ("MyList" ∈ ([] : List String) ∨ "MyList" ∈ EXCEPTION_LOCAL_LIST_IDS ∨
      "MyList" ∈ really_unused_lists fixListIndex
        (not_needed_ids (keysOf fixListIndex) [] EXCEPTION_LOCAL_LIST_IDS)
        fixFileText ∨
      (∃ obj, lookupAssoc fixListIndex "MyList" = some obj ∧
        list_is_referenced_anywhere obj fixFileText = true)) :=
  ⟨claim_C1.1 ["A"] [] [] "A" (by decide),
   claim_C1.2.1 ["A"] ["B"] [] "A" (by decide),
   claim_C1.2.2 fixListIndex fixFileText (keysOf fixListIndex) [] "MyList" (by decide)⟩

/-! ## Claim C9 -/

/-- C9: the process exits non-zero exactly when the root pack directory
is missing, some explicitly named root playbook id or name is not found
in the local playbook index, or no root was given; the exit status never
depends on whether the supplied external packs exist, and each missing
external pack contributes exactly its warning line. -/
theorem claim_C9 :
    (∀ (rootPackIsDir : Bool) (local_pbs : Index)
       (otherPacks : List (String × Bool)) (rootIds rootNames : List String),
      (main_exit rootPackIsDir local_pbs otherPacks rootIds rootNames).1 ≠ 0 ↔
        (rootPackIsDir = false ∨
         (∃ rid ∈ rootIds, lookupAssoc local_pbs rid = none) ∨
         (∃ rn ∈ rootNames, ∀ p ∈ local_pbs, (p.2).name ≠ rn) ∨
         (rootIds = [] ∧ rootNames = [])))
    ∧ (∀ (rootPackIsDir : Bool) (local_pbs : Index)
        (e e' : List (String × Bool)) (rootIds rootNames : List String),
      (main_exit rootPackIsDir local_pbs e rootIds rootNames).1
        = (main_exit rootPackIsDir local_pbs e' rootIds rootNames).1)
    ∧ (∀ (rootPackIsDir : Bool) (local_pbs : Index)
        (otherPacks : List (String × Bool)) (rootIds rootNames : List String)
        (pk : String × Bool),
      rootPackIsDir = true → pk ∈ otherPacks → pk.2 = false →
      ("WARNING: other pack not found: " ++ pk.1)
        ∈ (main_exit rootPackIsDir local_pbs otherPacks rootIds rootNames).2) := by
  refine ⟨?_, ?_, ?_⟩
  · intro rp lp ops ids ns
    simp only [main_exit]
    split_ifs with h1 h2 h3 h4
    · exact iff_of_true one_ne_zero (Or.inl h1)
    · refine iff_of_true one_ne_zero (Or.inr (Or.inl ?_))
      rw [List.any_eq_true] at h2
      rcases h2 with ⟨rid, hmem, hnone⟩
      exact ⟨rid, hmem, Option.isNone_iff_eq_none.mp hnone⟩
    · refine iff_of_true one_ne_zero (Or.inr (Or.inr (Or.inl ?_)))
      rw [List.any_eq_true] at h3
      rcases h3 with ⟨rn, hmem, hall⟩
      rw [Bool.not_eq_true', List.any_eq_false] at hall
      refine ⟨rn, hmem, fun p hp => ?_⟩
      have := hall p hp
      simpa using this
    · refine iff_of_true one_ne_zero (Or.inr (Or.inr (Or.inr ?_)))
      rw [Bool.and_eq_true, List.isEmpty_iff, List.isEmpty_iff] at h4
      exact h4
    · refine iff_of_false (by simp) ?_
      rintro (h | ⟨rid, hmem, hno⟩ | ⟨rn, hmem, hall⟩ | hemp)
      · exact h1 h
      · exact h2 (List.any_eq_true.mpr ⟨rid, hmem, by simp [hno]⟩)
      · refine h3 (List.any_eq_true.mpr ⟨rn, hmem, ?_⟩)
        rw [Bool.not_eq_true', List.any_eq_false]
        intro p hp
        simpa using hall p hp
      · exact h4 (by simp [hemp.1, hemp.2])
  · intro rp lp e e' ids ns
    simp only [main_exit]
    split_ifs <;> rfl
  · intro rp lp ops ids ns pk hrp hmem hfalse
    subst hrp
    have hw : ("WARNING: other pack not found: " ++ pk.1)
        ∈ (ops.filter (fun p => !p.2)).map
          (fun p => "WARNING: other pack not found: " ++ p.1) :=
      List.mem_map.mpr ⟨pk, List.mem_filter.mpr ⟨hmem, by simp [hfalse]⟩, rfl⟩
    simp only [main_exit, if_neg (show ¬(true = false) by simp)]
    split_ifs <;> exact hw

/-- C9 witness: a missing external pack produces its warning while the
run with a found root exits zero. -/
theorem claim_C9_witness :
    ("WARNING: other pack not found: Packs/missing")
      ∈ (main_exit true fixPbIndex [("Packs/missing", false)] ["A"] []).2 ∧
    ¬((main_exit true fixPbIndex [("Packs/missing", false)] ["A"] []).1 ≠ 0) :=
  ⟨claim_C9.2.2 true fixPbIndex [("Packs/missing", false)] ["A"] []
      ("Packs/missing", false) rfl (by decide) rfl,
   fun h => by
    have := (claim_C9.1 true fixPbIndex [("Packs/missing", false)] ["A"] []).mp h
    revert this
    decide⟩

/-! ## Crawl lemmas

The BFS invariants: one dequeued playbook extends the reachable set and
the queue by the same fresh, duplicate-free block of locally resolved
ids, and only ever adds ids of indexed objects to the script and list
sets. -/

def idFinset (lp : Index) : Finset String := (idsOf lp).toFinset

theorem setAdd_sub (l : List String) (y x : String) (h : x ∈ setAdd l y) :
    x ∈ l ∨ x = y := by
  unfold setAdd at h
  split at h
  · exact Or.inl h
  · rcases List.mem_append.mp h with h' | h'
    · exact Or.inl h'
    · exact Or.inr (List.mem_singleton.mp h')

theorem handleSubPlaybook_spec (tid : String) (pb : ObjectDef) (t : TaskInner)
    (lp : Index) (ext : List ExtPack) (reachable queueAdd : List String)
    (refs : List ExternalRef) :
    ∃ new,
      (handleSubPlaybook tid pb t lp ext reachable queueAdd refs).1
        = reachable ++ new ∧
      (handleSubPlaybook tid pb t lp ext reachable queueAdd refs).2.1
        = queueAdd ++ new ∧
      new.Nodup ∧ ∀ x ∈ new, x ∉ reachable ∧ x ∈ idsOf lp := by
  unfold handleSubPlaybook
  cases subPlaybookRef t with
  | none => exact ⟨[], by simp, by simp, List.nodup_nil, by simp⟩
  | some rv =>
    cases hres : resolve_in_index rv lp with
    | none => exact ⟨[], by simp [hres], by simp [hres], List.nodup_nil, by simp⟩
    | some o =>
      by_cases hmem : o.id ∈ reachable
      · exact ⟨[], by simp [hres, hmem], by simp [hres, hmem], List.nodup_nil, by simp⟩
      · refine ⟨[o.id], by simp [hres, hmem], by simp [hres, hmem],
          List.nodup_singleton _, ?_⟩
        intro x hx
        have hxo : x = o.id := List.mem_singleton.mp hx
        subst hxo
        exact ⟨hmem, resolve_id_mem_ids rv lp o hres⟩

theorem handleScript_fst_sub (tid : String) (pb : ObjectDef) (t : TaskInner)
    (ls : Index) (ext : List ExtPack) (scripts : List String)
    (refs : List ExternalRef) :
    ∀ x ∈ (handleScript tid pb t ls ext scripts refs).1,
      x ∈ scripts ∨ x ∈ idsOf ls := by
  intro x hx
  unfold handleScript at hx
  split at hx
  · exact Or.inl hx
  · split at hx
    · exact Or.inl hx
    · split at hx
      · exact Or.inl hx
      · split at hx
        · rename_i o hres
          rcases setAdd_sub scripts o.id x hx with h | h
          · exact Or.inl h
          · exact Or.inr (h ▸ resolve_id_mem_ids _ ls o hres)
        · exact Or.inl hx

theorem handleListArg_sub (tid : String) (pb : ObjectDef) (ll : Index)
    (ext : List ExtPack) (acc : List String × List ExternalRef)
    (arg : String × ArgVal) :
    ∀ x ∈ (handleListArg tid pb ll ext acc arg).1, x ∈ acc.1 ∨ x ∈ idsOf ll := by
  intro x hx
  unfold handleListArg at hx
  split at hx
  · split at hx
    · exact Or.inl hx
    · split at hx
      · rename_i o hres
        rcases setAdd_sub acc.1 o.id x hx with h | h
        · exact Or.inl h
        · exact Or.inr (h ▸ resolve_id_mem_ids _ ll o hres)
      · exact Or.inl hx
  · exact Or.inl hx

theorem handleListArgs_sub (tid : String) (pb : ObjectDef) (ll : Index)
    (ext : List ExtPack) :
    ∀ (args : List (String × ArgVal)) (p : List String × List ExternalRef)
      (x : String),
      x ∈ (args.foldl (handleListArg tid pb ll ext) p).1 →
      x ∈ p.1 ∨ x ∈ idsOf ll := by
  intro args
  induction args with
  | nil => intro p x hx; exact Or.inl hx
  | cons a as ih =>
    intro p x hx
    rw [List.foldl_cons] at hx
    rcases ih (handleListArg tid pb ll ext p a) x hx with h | h
    · exact handleListArg_sub tid pb ll ext p a x h
    · exact Or.inr h

theorem processTask_spec (pb : ObjectDef) (lp ls ll : Index)
    (ext : List ExtPack) (acc : CrawlAcc) (entry : String × Option TaskEntry) :
    ∃ new,
      (processTask pb lp ls ll ext acc entry).reachable = acc.reachable ++ new ∧
      (processTask pb lp ls ll ext acc entry).queueAdd = acc.queueAdd ++ new ∧
      new.Nodup ∧ (∀ x ∈ new, x ∉ acc.reachable ∧ x ∈ idsOf lp) ∧
      (∀ x ∈ (processTask pb lp ls ll ext acc entry).scripts,
        x ∈ acc.scripts ∨ x ∈ idsOf ls) ∧
      (∀ x ∈ (processTask pb lp ls ll ext acc entry).lists,
        x ∈ acc.lists ∨ x ∈ idsOf ll) := by
  cases entry with
  | mk tid te =>
    cases te with
    | none =>
      exact ⟨[], by simp [processTask], by simp [processTask], List.nodup_nil,
        by simp, fun x hx => Or.inl (by simpa [processTask] using hx),
        fun x hx => Or.inl (by simpa [processTask] using hx)⟩
    | some te' =>
      obtain ⟨new, h1, h2, h3, h4⟩ := handleSubPlaybook_spec tid pb
        (te'.task.getD TaskInner.empty) lp ext acc.reachable acc.queueAdd acc.refs
      refine ⟨new, ?_, ?_, h3, h4, ?_, ?_⟩
      · simpa [processTask] using h1
      · simpa [processTask] using h2
      · intro x hx
        simp only [processTask] at hx
        exact handleScript_fst_sub tid pb _ ls ext acc.scripts _ x hx
      · intro x hx
        simp only [processTask] at hx
        rcases handleListArgs_sub tid pb ll ext te'.scriptarguments
          (acc.lists, _) x hx with h | h
        · exact Or.inl h
        · exact Or.inr h

theorem processTasks_spec (pb : ObjectDef) (lp ls ll : Index)
    (ext : List ExtPack) :
    ∀ (tasks : List (String × Option TaskEntry)) (acc : CrawlAcc),
    ∃ new,
      (processTasks pb lp ls ll ext tasks acc).reachable = acc.reachable ++ new ∧
      (processTasks pb lp ls ll ext tasks acc).queueAdd = acc.queueAdd ++ new ∧
      new.Nodup ∧ (∀ x ∈ new, x ∉ acc.reachable ∧ x ∈ idsOf lp) ∧
      (∀ x ∈ (processTasks pb lp ls ll ext tasks acc).scripts,
        x ∈ acc.scripts ∨ x ∈ idsOf ls) ∧
      (∀ x ∈ (processTasks pb lp ls ll ext tasks acc).lists,
        x ∈ acc.lists ∨ x ∈ idsOf ll) := by
  intro tasks
  induction tasks with
  | nil =>
    intro acc
    exact ⟨[], by simp [processTasks], by simp [processTasks], List.nodup_nil,
      by simp, fun x hx => Or.inl (by simpa [processTasks] using hx),
      fun x hx => Or.inl (by simpa [processTasks] using hx)⟩
  | cons e ts ih =>
    intro acc
    have hfold : processTasks pb lp ls ll ext (e :: ts) acc
        = processTasks pb lp ls ll ext ts (processTask pb lp ls ll ext acc e) := by
      simp [processTasks]
    obtain ⟨n1, p1, p2, p3, p4, p5, p6⟩ := processTask_spec pb lp ls ll ext acc e
    obtain ⟨n2, q1, q2, q3, q4, q5, q6⟩ := ih (processTask pb lp ls ll ext acc e)
    refine ⟨n1 ++ n2, ?_, ?_, ?_, ?_, ?_, ?_⟩
    · rw [hfold, q1, p1, List.append_assoc]
    · rw [hfold, q2, p2, List.append_assoc]
    · rw [List.nodup_append]
      refine ⟨p3, q3, fun a ha1 ha2 => ?_⟩
      have := (q4 a ha2).1
      rw [p1] at this
      exact this (List.mem_append.mpr (Or.inr ha1))
    · intro x hx
      rcases List.mem_append.mp hx with h | h
      · exact p4 x h
      · have := q4 x h
        rw [p1] at this
        exact ⟨fun hc => this.1 (List.mem_append.mpr (Or.inl hc)), this.2⟩
    · intro x hx
      rw [hfold] at hx
      rcases q5 x hx with h | h
      · exact p5 x h
      · exact Or.inr h
    · intro x hx
      rw [hfold] at hx
      rcases q6 x hx with h | h
      · exact p6 x h
      · exact Or.inr h

theorem crawlLoop_isSome (lp ls ll : Index) (ext : List ExtPack)
    (files : PbFiles) :
    ∀ (fuel : Nat) (queue reachable scripts lists : List String)
      (refs : List ExternalRef),
    queue.length + (idFinset lp \ reachable.toFinset).card ≤ fuel →
    (crawlLoop lp ls ll ext files fuel queue reachable scripts lists refs).isSome
      = true := by
  intro fuel
  induction fuel with
  | zero =>
    intro queue reachable scripts lists refs h
    cases queue with
    | nil => simp [crawlLoop]
    | cons q rest => simp at h
  | succ n ih =>
    intro queue reachable scripts lists refs h
    cases queue with
    | nil => simp [crawlLoop]
    | cons q rest =>
      simp only [crawlLoop]
      split
      · apply ih
        simp only [List.length_cons] at h
        omega
      · rename_i pb hlook
        obtain ⟨new, h1, h2, h3, h4, _, _⟩ := processTasks_spec pb lp ls ll ext
          ((lookupAssoc files pb.path).getD []) ⟨reachable, [], scripts, lists, refs⟩
        rw [h1, h2]
        apply ih
        have hNsub : new.toFinset ⊆ idFinset lp \ reachable.toFinset := by
          intro x hx
          rw [List.mem_toFinset] at hx
          rcases h4 x hx with ⟨hnr, hid⟩
          exact Finset.mem_sdiff.mpr
            ⟨List.mem_toFinset.mpr hid, fun hc => hnr (List.mem_toFinset.mp hc)⟩
        have hcard : new.toFinset.card = new.length :=
          List.toFinset_card_of_nodup h3
        have hsd : idFinset lp \ (reachable.toFinset ∪ new.toFinset)
            = (idFinset lp \ reachable.toFinset) \ new.toFinset := by
          ext a
          simp only [Finset.mem_sdiff, Finset.mem_union]
          tauto
        have hc2 : ((idFinset lp \ reachable.toFinset) \ new.toFinset).card
            = (idFinset lp \ reachable.toFinset).card - new.toFinset.card :=
          Finset.card_sdiff hNsub
        have hle : new.toFinset.card ≤ (idFinset lp \ reachable.toFinset).card :=
          Finset.card_le_card hNsub
        rw [List.toFinset_append, hsd, hc2, hcard]
        simp only [List.length_cons] at h
        simp only [List.length_append, List.nil_append]
        omega

theorem crawlLoop_nodup (lp ls ll : Index) (ext : List ExtPack)
    (files : PbFiles) :
    ∀ (fuel : Nat) (queue reachable scripts lists : List String)
      (refs : List ExternalRef) (st : CrawlState),
    crawlLoop lp ls ll ext files fuel queue reachable scripts lists refs = some st →
    reachable.Nodup → st.reachable_pbs.Nodup := by
  intro fuel
  induction fuel with
  | zero =>
    intro queue reachable scripts lists refs st h hnd
    cases queue with
    | nil => cases h; exact hnd
    | cons q rest => cases h
  | succ n ih =>
    intro queue reachable scripts lists refs st h hnd
    cases queue with
    | nil => cases h; exact hnd
    | cons q rest =>
      simp only [crawlLoop] at h
      split at h
      · exact ih rest reachable scripts lists refs st h hnd
      · rename_i pb hlook
        obtain ⟨new, h1, h2, h3, h4, _, _⟩ := processTasks_spec pb lp ls ll ext
          ((lookupAssoc files pb.path).getD []) ⟨reachable, [], scripts, lists, refs⟩
        rw [h1, h2] at h
        refine ih _ _ _ _ _ st h ?_
        rw [List.nodup_append]
        exact ⟨hnd, h3, fun a ha1 ha2 => (h4 a ha2).1 ha1⟩

theorem crawlLoop_subset (lp ls ll : Index) (ext : List ExtPack)
    (files : PbFiles) :
    ∀ (fuel : Nat) (queue reachable scripts lists : List String)
      (refs : List ExternalRef) (st : CrawlState),
    crawlLoop lp ls ll ext files fuel queue reachable scripts lists refs = some st →
    (∀ x ∈ reachable, x ∈ idsOf lp) → (∀ x ∈ scripts, x ∈ idsOf ls) →
    (∀ x ∈ lists, x ∈ idsOf ll) →
    (∀ x ∈ st.reachable_pbs, x ∈ idsOf lp) ∧
    (∀ x ∈ st.reachable_scripts, x ∈ idsOf ls) ∧
    (∀ x ∈ st.reachable_lists, x ∈ idsOf ll) := by
  intro fuel
  induction fuel with
  | zero =>
    intro queue reachable scripts lists refs st h hr hs hl
    cases queue with
    | nil => cases h; exact ⟨hr, hs, hl⟩
    | cons q rest => cases h
  | succ n ih =>
    intro queue reachable scripts lists refs st h hr hs hl
    cases queue with
    | nil => cases h; exact ⟨hr, hs, hl⟩
    | cons q rest =>
      simp only [crawlLoop] at h
      split at h
      · exact ih rest reachable scripts lists refs st h hr hs hl
      · rename_i pb hlook
        obtain ⟨new, h1, h2, h3, h4, h5, h6⟩ := processTasks_spec pb lp ls ll ext
          ((lookupAssoc files pb.path).getD []) ⟨reachable, [], scripts, lists, refs⟩
        rw [h1, h2] at h
        refine ih _ _ _ _ _ st h ?_ ?_ ?_
        · intro x hx
          rcases List.mem_append.mp hx with hx' | hx'
          · exact hr x hx'
          · exact (h4 x hx').2
        · intro x hx
          rcases h5 x hx with hx' | hx'
          · exact hs x hx'
          · exact hx'
        · intro x hx
          rcases h6 x hx with hx' | hx'
          · exact hl x hx'
          · exact hx'

/-! ## Claim C3 -/

/-- C3: the crawl terminates on every input, including cyclic playbook
reference graphs — the fuel supplied by `crawl_dependencies` provably
never runs out, because a playbook id is enqueued only when it is not
yet in the reachable set; the reachable playbook set never holds an id
twice; and on the concrete cycle (A references B twice, B references A
back) the crawl returns with A and B each exactly once. -/
theorem claim_C3 :
    (∀ (roots : List ObjectDef) (lp ls ll : Index) (ext : List ExtPack)
      (files : PbFiles),
      crawl_dependencies roots lp ls ll ext files ≠ none)
    ∧ (∀ (roots : List ObjectDef) (lp ls ll : Index) (ext : List ExtPack)
      (files : PbFiles) (st : CrawlState),
      crawl_dependencies roots lp ls ll ext files = some st →
      st.reachable_pbs.Nodup)
    ∧ (crawl_dependencies [fixPbA] fixPbIndex [] [] [] fixCycFiles
        = some ⟨["A", "B"], [], [], []⟩
       ∧ List.count "A" ["A", "B"] = 1 ∧ List.count "B" ["A", "B"] = 1) := by
  refine ⟨?_, ?_, by decide, by decide, by decide⟩
  · intro roots lp ls ll ext files
    rw [Ne, ← Option.not_isSome_iff_eq_none, not_not]
    unfold crawl_dependencies
    apply crawlLoop_isSome
    have h1 : (idFinset lp \ ((roots.map (·.id)).dedup).toFinset).card
        ≤ lp.length := by
      calc (idFinset lp \ ((roots.map (·.id)).dedup).toFinset).card
          ≤ (idFinset lp).card := Finset.card_le_card (Finset.sdiff_subset)
        _ ≤ (idsOf lp).length := List.toFinset_card_le _
        _ = lp.length := List.length_map _ _
    omega
  · intro roots lp ls ll ext files st h
    unfold crawl_dependencies at h
    exact crawlLoop_nodup lp ls ll ext files _ _ _ _ _ _ st h
      (List.nodup_dedup _)

/-- C3 witness: the general clauses applied to the concrete cyclic
graph. -/
theorem claim_C3_witness :
    crawl_dependencies [fixPbA] fixPbIndex [] [] [] fixCycFiles ≠ none ∧
    (["A", "B"] : List String).Nodup :=
  ⟨claim_C3.1 [fixPbA] fixPbIndex [] [] [] fixCycFiles,
   claim_C3.2.1 [fixPbA] fixPbIndex [] [] [] fixCycFiles
     ⟨["A", "B"], [], [], []⟩ (by decide)⟩

/-! ## Claim C10 -/

/-- C10: every id in the three reachable sets returned by the crawl is a
key of the corresponding local index, provided each index keys its
objects by their own id (which the discovery functions guarantee) and
the roots come from the local playbook index — so the reporter's
`index[oid]` lookups on reachable ids cannot fail. -/
theorem claim_C10 :
    ∀ (roots : List ObjectDef) (lp ls ll : Index) (ext : List ExtPack)
      (files : PbFiles) (st : CrawlState),
      (∀ p ∈ lp, (p.2).id = p.1) → (∀ p ∈ ls, (p.2).id = p.1) →
      (∀ p ∈ ll, (p.2).id = p.1) →
      (∀ r ∈ roots, r.id ∈ keysOf lp) →
      crawl_dependencies roots lp ls ll ext files = some st →
      (∀ x ∈ st.reachable_pbs, x ∈ keysOf lp) ∧
      (∀ x ∈ st.reachable_scripts, x ∈ keysOf ls) ∧
      (∀ x ∈ st.reachable_lists, x ∈ keysOf ll) := by
  intro roots lp ls ll ext files st hlp hls hll hroots hcrawl
  have hids : ∀ (l : Index), (∀ p ∈ l, (p.2).id = p.1) → idsOf l = keysOf l :=
    fun l h => List.map_congr_left h
  unfold crawl_dependencies at hcrawl
  have hinit : ∀ x ∈ (roots.map (·.id)).dedup, x ∈ idsOf lp := by
    intro x hx
    rw [List.mem_dedup, List.mem_map] at hx
    rcases hx with ⟨r, hr, he⟩
    rw [hids lp hlp]
    exact he ▸ hroots r hr
  have h := crawlLoop_subset lp ls ll ext files _ _ _ _ _ _ st hcrawl hinit
    (by simp) (by simp)
  rw [hids lp hlp, hids ls hls, hids ll hll] at h
  exact h

/-- C10 witness: a crawl whose script is reached by display name is
recorded under its canonical id, a key of the script index. -/
theorem claim_C10_witness :
    "s1" ∈ keysOf fixScriptIndex ∧ "A" ∈ keysOf [("A", fixPbA)] := by
  have h := claim_C10 [fixPbA] [("A", fixPbA)] fixScriptIndex [] [] fixScriptFiles
    ⟨["A"], ["s1"], [], []⟩ (by decide) (by decide) (by decide) (by decide)
    (by decide)
  exact ⟨h.2.1 "s1" (by decide), h.1 "A" (by decide)⟩

end SecOps
